import Mathlib

/-!
# Verification of `build_docs.py` (python/docsbuild-scripts)

A shallow embedding of the coordination core of `build_docs.py`:
version/language catalogs, the nearest-version resolver used for
translation branches, the rebuild decision engine and its persisted
state, the changed-file diff, and the per-pair build loop.

Python strings are Lean `String`s, Python tuples of ints are `List Nat`,
Python dicts keeping insertion order are association lists, and
side-effecting collaborators (git queries, raised exceptions) are passed
in explicitly as environment records.  Where a core `String` operation
does not reduce in the kernel (`splitOn`, `toNat?`) we recurse over
`String.data` ourselves with the same semantics.
-/

namespace DocsBuild

/-! ## Character-level string helpers -/

/-- `Python: s.split(".")` over the character list: `""` yields `[""]`. -/
def splitDots : List Char → List (List Char)
  | [] => [[]]
  | c :: rest =>
    if c = '.' then [] :: splitDots rest
    else
      match splitDots rest with
      | g :: gs => (c :: g) :: gs
      | [] => [[c]]

/-- `Python: int(s)` for a non-negative decimal literal: every character a
digit and at least one of them; otherwise `ValueError`, i.e. `none`. -/
def parseNat? (cs : List Char) : Option Nat :=
  if cs ≠ [] ∧ cs.all Char.isDigit then
    some (cs.foldl (fun acc c => acc * 10 + (c.toNat - 48)) 0)
  else none

/-- `Python: needle in haystack` for strings: substring containment. -/
def chInfix (needle haystack : List Char) : Bool :=
  haystack.tails.any (fun t => needle.isPrefixOf t)

/-- `Python: needle in haystack` on `String`s. -/
def strContains (haystack needle : String) : Bool :=
  chInfix needle.data haystack.data

/-- `p` lies under the subtree `sub` (e.g. `sub = "Doc/"`): the path
string starts with `sub`. -/
def pathUnder (sub p : String) : Bool :=
  sub.data.isPrefixOf p.data

/-! ## Version tuples (`version_to_tuple`, `tuple_to_version`) -/

/-- `version_to_tuple(version)`: split on `"."` and parse each part as an
integer.  Python raises `ValueError` on a non-numeric part; that failure
is `none` here. -/
def version_to_tuple (version : String) : Option (List Nat) :=
  (splitDots version.data).mapM parseNat?

/-- `tuple_to_version(version_tuple)`: join the decimal renderings with `"."`. -/
def tuple_to_version (version_tuple : List Nat) : String :=
  String.intercalate "." (version_tuple.map toString)

/-- Python `tuple.__lt__` on int tuples: strict lexicographic order, a
proper prefix being smaller. -/
def tupleLt : List Nat → List Nat → Bool
  | [], [] => false
  | [], _ :: _ => true
  | _ :: _, [] => false
  | a :: as, b :: bs => a < b || (a == b && tupleLt as bs)

/-- The matching non-strict order, used as the sorting relation for
Python's ascending `sorted`. -/
def tupleLe (a b : List Nat) : Prop := tupleLt b a = false

instance : DecidableRel tupleLe := fun a b => by unfold tupleLe; infer_instance

/-! ## `locate_nearest_version` -/

/-- `bisect.bisect_left(a, x)` on a sorted list: the index of the first
element that is not `< x` (equivalently, the insertion point of `x`). -/
def bisectLeft : List (List Nat) → List Nat → Nat
  | [], _ => 0
  | v :: rest, x => if tupleLt v x then bisectLeft rest x + 1 else 0

/-- `locate_nearest_version(available_versions, target_version)`:
`sorted(map(version_to_tuple, set(available_versions)))`, then take the
element at the `bisect_left` insertion point of the target tuple,
falling back to the last element when the insertion point is past the
end (the `IndexError` handler).  `none` models the unhandled
`ValueError`/`IndexError` on unparseable input or an empty available
set. -/
def locate_nearest_version (available_versions : List String)
    (target_version : String) : Option String := do
  let tuples ← available_versions.dedup.mapM version_to_tuple
  let target ← version_to_tuple target_version
  let avail := tuples.insertionSort tupleLe
  let found ←
    match avail.get? (bisectLeft avail target) with
    | some v => some v
    | none => avail.getLast?
  return tuple_to_version found

/-! ## Order lemmas for `tupleLt` -/

theorem tupleLt_irrefl (x : List Nat) : tupleLt x x = false := by
  induction x with
  | nil => rfl
  | cons a as ih => simp [tupleLt, ih]

theorem tupleLt_trans : ∀ x y z : List Nat,
    tupleLt x y = true → tupleLt y z = true → tupleLt x z = true := by
  intro x
  induction x with
  | nil =>
    intro y z h1 h2
    cases y with
    | nil => simp [tupleLt] at h1
    | cons b bs =>
      cases z with
      | nil => simp [tupleLt] at h2
      | cons c cs => rfl
  | cons a as ih =>
    intro y z h1 h2
    cases y with
    | nil => simp [tupleLt] at h1
    | cons b bs =>
      cases z with
      | nil => simp [tupleLt] at h2
      | cons c cs =>
        simp only [tupleLt, Bool.or_eq_true, Bool.and_eq_true, decide_eq_true_eq,
          beq_iff_eq] at h1 h2 ⊢
        rcases h1 with h1 | ⟨rfl, h1⟩
        · rcases h2 with h2 | ⟨rfl, h2⟩
          · exact Or.inl (Nat.lt_trans h1 h2)
          · exact Or.inl h1
        · rcases h2 with h2 | ⟨rfl, h2⟩
          · exact Or.inl h2
          · exact Or.inr ⟨rfl, ih _ _ h1 h2⟩

theorem tupleLt_total : ∀ x y : List Nat,
    tupleLt x y = true ∨ x = y ∨ tupleLt y x = true := by
  intro x
  induction x with
  | nil =>
    intro y
    cases y with
    | nil => exact Or.inr (Or.inl rfl)
    | cons b bs => exact Or.inl rfl
  | cons a as ih =>
    intro y
    cases y with
    | nil => exact Or.inr (Or.inr rfl)
    | cons b bs =>
      rcases Nat.lt_trichotomy a b with hab | rfl | hab
      · refine Or.inl ?_
        simp [tupleLt, hab]
      · rcases ih bs with h | rfl | h
        · refine Or.inl ?_
          simp [tupleLt, h]
        · exact Or.inr (Or.inl rfl)
        · refine Or.inr (Or.inr ?_)
          simp [tupleLt, h]
      · refine Or.inr (Or.inr ?_)
        simp [tupleLt, hab]

instance : IsTrans (List Nat) tupleLe where
  trans := by
    intro a b c h1 h2
    unfold tupleLe at *
    by_contra hne
    have hca : tupleLt c a = true := by
      cases h : tupleLt c a with
      | false => exact absurd h hne
      | true => rfl
    rcases tupleLt_total a b with h | rfl | h
    · have := tupleLt_trans _ _ _ hca h
      rw [this] at h2
      exact Bool.noConfusion h2
    · rw [hca] at h2
      exact Bool.noConfusion h2
    · rw [h] at h1
      exact Bool.noConfusion h1

instance : IsTotal (List Nat) tupleLe where
  total := by
    intro a b
    unfold tupleLe
    rcases tupleLt_total a b with h | rfl | h
    · left
      by_contra hne
      have hba : tupleLt b a = true := by
        cases hb : tupleLt b a with
        | false => exact absurd hb hne
        | true => rfl
      have := tupleLt_trans _ _ _ h hba
      rw [tupleLt_irrefl] at this
      exact Bool.noConfusion this
    · left
      rw [tupleLt_irrefl]
    · right
      by_contra hne
      have hab : tupleLt a b = true := by
        cases hb : tupleLt a b with
        | false => exact absurd hb hne
        | true => rfl
      have := tupleLt_trans _ _ _ h hab
      rw [tupleLt_irrefl] at this
      exact Bool.noConfusion this

/-- In a list sorted ascending by Python tuple order, `bisect_left`
points at any element present in the list. -/
theorem get?_bisectLeft_of_mem {l : List (List Nat)} {x : List Nat}
    (hs : List.Sorted tupleLe l) (hx : x ∈ l) :
    l.get? (bisectLeft l x) = some x := by
  induction l with
  | nil => cases hx
  | cons v rest ih =>
    rw [List.sorted_cons] at hs
    by_cases hvx : tupleLt v x = true
    · have hxv : x ≠ v := by
        rintro rfl
        rw [tupleLt_irrefl] at hvx
        exact Bool.noConfusion hvx
      have hxr : x ∈ rest := by
        rcases List.mem_cons.mp hx with rfl | h
        · exact absurd rfl hxv
        · exact h
      simp only [bisectLeft, hvx, if_true]
      exact ih hs.2 hxr
    · have hvx' : tupleLt v x = false := by
        cases h : tupleLt v x with
        | false => rfl
        | true => exact absurd h hvx
      simp only [bisectLeft, hvx', Bool.false_eq_true, if_false]
      rcases List.mem_cons.mp hx with rfl | hxr
      · rfl
      · have hle : tupleLe v x := hs.1 x hxr
        unfold tupleLe at hle
        rcases tupleLt_total v x with h | rfl | h
        · rw [h] at hvx'
          exact Bool.noConfusion hvx'
        · rfl
        · rw [h] at hle
          exact Bool.noConfusion hle

/-- Mapping with a fallible function: success lifts membership. -/
theorem mapM_option_mem {α β : Type} (f : α → Option β) :
    ∀ {l : List α} {l' : List β}, l.mapM f = some l' →
      ∀ {x : α}, x ∈ l → ∃ y, y ∈ l' ∧ f x = some y := by
  intro l
  induction l with
  | nil =>
    intro l' _ x hx
    cases hx
  | cons a as ih =>
    intro l' hm x hx
    rw [← List.mapM'_eq_mapM] at hm
    simp only [List.mapM'] at hm
    cases hfa : f a with
    | none =>
      rw [hfa] at hm
      exact Option.noConfusion hm
    | some b =>
      rw [hfa] at hm
      cases hrest : as.mapM' f with
      | none =>
        rw [hrest] at hm
        exact Option.noConfusion hm
      | some bs =>
        rw [hrest] at hm
        have hm' : b :: bs = l' := Option.some.inj hm
        rcases List.mem_cons.mp hx with rfl | hxs
        · exact ⟨b, by rw [← hm']; exact List.mem_cons_self _ _, hfa⟩
        · rw [List.mapM'_eq_mapM] at hrest
          rcases ih hrest hxs with ⟨y, hy, hfy⟩
          exact ⟨y, by rw [← hm']; exact List.mem_cons_of_mem _ hy, hfy⟩

/-- C6: `locate_nearest_version` converts the available dotted-numeric
versions to integer tuples, sorts and deduplicates them, takes the
element at the binary-search insertion point of the target, clamping to
the highest available version past the end; hence an available target is
returned exactly, and on `{2.7, 3.6, 3.7, 3.8}` the targets
`3.9, 3.5, 2.6, 3.10, 3.7` resolve to `3.8, 3.6, 2.7, 3.8, 3.7`. -/
theorem C6_locate_nearest_version (available : List String) (target : String)
    (tuples : List (List Nat)) (t : List Nat)
    (hav : available.dedup.mapM version_to_tuple = some tuples)
    (ht : version_to_tuple target = some t)
    (hcanon : tuple_to_version t = target)
    (hmem : target ∈ available) :
    locate_nearest_version available target = some target ∧
    locate_nearest_version ["2.7", "3.6", "3.7", "3.8"] "3.9" = some "3.8" ∧
    locate_nearest_version ["2.7", "3.6", "3.7", "3.8"] "3.5" = some "3.6" ∧
    locate_nearest_version ["2.7", "3.6", "3.7", "3.8"] "2.6" = some "2.7" ∧
    locate_nearest_version ["2.7", "3.6", "3.7", "3.8"] "3.10" = some "3.8" ∧
    locate_nearest_version ["2.7", "3.6", "3.7", "3.8"] "3.7" = some "3.7" := by
  refine ⟨?_, by decide, by decide, by decide, by decide, by decide⟩
  have hmem' : target ∈ available.dedup := List.mem_dedup.mpr hmem
  obtain ⟨y, hy, hfy⟩ := mapM_option_mem version_to_tuple hav hmem'
  rw [ht] at hfy
  obtain rfl : t = y := Option.some.inj hfy
  have hmemT : t ∈ tuples.insertionSort tupleLe :=
    (List.perm_insertionSort tupleLe tuples).mem_iff.mpr hy
  have hsort := List.sorted_insertionSort tupleLe tuples
  have hget := get?_bisectLeft_of_mem hsort hmemT
  unfold locate_nearest_version
  rw [hav, ht]
  simp only [Option.bind_eq_bind, Option.some_bind, hget, Option.pure_def, hcanon]

/-- Witness for C6 at the exact-match input `3.7`. -/
theorem C6_locate_nearest_version_witness :
    locate_nearest_version ["2.7", "3.6", "3.7", "3.8"] "3.7" = some "3.7" :=
  (C6_locate_nearest_version ["2.7", "3.6", "3.7", "3.8"] "3.7"
    [[2, 7], [3, 6], [3, 7], [3, 8]] [3, 7]
    (by decide) (by decide) (by decide) (by decide)).1

/-! ## `Version` and `Versions` -/

/-- `Version.STATUSES`: the closed status set. -/
def STATUSES : List String :=
  ["EOL", "security-fixes", "stable", "pre-release", "in development"]

/-- `Version.SYNONYMS`: devguide vocabulary mapped to ours. -/
def SYNONYMS : List (String × String) :=
  [("feature", "in development"), ("bugfix", "stable"),
   ("security", "security-fixes"), ("end-of-life", "EOL"),
   ("prerelease", "pre-release")]

/-- A CPython version, fields in `__init__` assignment order. -/
structure Version where
  name : String
  branch_or_tag : Option String
  status : String
deriving DecidableEq

/-- `Version.__init__`: normalize the status through `SYNONYMS`, then
validate against `STATUSES`; an invalid status raises `ValueError`
(here `.error` carrying the offending normalized status — the real
message also lists the allowed set in Python's nondeterministic set
iteration order, which we do not reproduce). -/
def Version.make (name status : String) (branch_or_tag : Option String := none) :
    Except String Version :=
  let status := (SYNONYMS.lookup status).getD status
  if status ∈ STATUSES then .ok ⟨name, branch_or_tag, status⟩
  else .error status

/-- `Version.__eq__`: equality is by `name` alone. -/
def Version.beq (self other : Version) : Bool :=
  self.name == other.name

/-- `Version.as_tuple()`; `version_to_tuple` raises on a non-numeric
name, a case no catalog name exercises (`getD []` stands in for it). -/
def Version.as_tuple (v : Version) : List Nat :=
  (version_to_tuple v.name).getD []

/-- Sorting key order for `Versions.from_json`: ascending `as_tuple`. -/
def versionKeyLe (a b : Version) : Prop := tupleLe a.as_tuple b.as_tuple

instance : DecidableRel versionKeyLe := fun a b => by
  unfold versionKeyLe; infer_instance

/-- One devguide `release-cycle.json` entry (the fields `from_json` reads). -/
structure ReleaseInfo where
  branch : String
  status : String
deriving DecidableEq

/-- `Version.from_json(name, values)`. -/
def Version.fromJson (name : String) (values : ReleaseInfo) : Except String Version :=
  Version.make name values.status (some values.branch)

/-- `Versions.from_json(data)`: build each `Version` (a raised
`ValueError` propagates and aborts the whole parse) and sort by
`as_tuple`. -/
def Versions.from_json (data : List (String × ReleaseInfo)) :
    Except String (List Version) := do
  let versions ← data.mapM fun nv => Version.fromJson nv.1 nv.2
  return versions.insertionSort versionKeyLe

/-! ## `Language` and `Languages` -/

/-- A translation target (`Language` dataclass). -/
structure Language where
  iso639_tag : String
  name : String
  translated_name : String
  in_prod : Bool
  sphinxopts : List String
  html_only : Bool
deriving DecidableEq

/-- `Language.tag`: `iso639_tag.replace("_", "-").lower()` (tags are
ASCII, so per-character `Char.toLower` matches `str.lower`). -/
def Language.tag (l : Language) : String :=
  String.mk ((l.iso639_tag.data.map fun c => if c = '_' then '-' else c).map Char.toLower)

/-- `Languages.filter(language_tags)`: with tags given keep the catalog
entries whose tag is in the set, else return the whole catalog. -/
def Languages.filter (languages : List Language) (language_tags : List String) :
    List Language :=
  if language_tags ≠ [] then
    languages.filter fun l => l.tag ∈ language_tags
  else languages

/-! ## Rebuild decision engine (`should_rebuild`, `load_state`, `save_state`) -/

/-- One record of the persisted state document, with the keys
`save_state` writes; `translation_sha` is present only for translated
languages. -/
structure StoredState where
  last_build_start : String
  last_build_duration : String
  triggered_by : String
  cpython_sha : String
  translation_sha : Option String
deriving DecidableEq

/-- The git queries `should_rebuild` makes, passed as data: the loaded
state for this pair (`none` for a missing file or key), `rev-parse HEAD`
of the CPython and translation checkouts, and the output of
`git diff --name-only old new` (newline-joined changed paths). -/
structure RebuildEnv where
  state : Option StoredState
  cpython_sha : String
  translation_sha : String
  diff : String → String → String

/-- `DocBuilder.should_rebuild`: `.ok (some reason)` for a truthy rebuild
reason, `.ok none` for `False`, `.error ()` for the uncaught `KeyError`
when a translated language's stored record lacks `translation_sha`. -/
def should_rebuild (language_tag : String) (env : RebuildEnv) :
    Except Unit (Option String) :=
  match env.state with
  | none => .ok (some "no previous state")
  | some state =>
    let cpythonCheck : Except Unit (Option String) :=
      if env.cpython_sha ≠ state.cpython_sha then
        let diff := env.diff state.cpython_sha env.cpython_sha
        if strContains diff "Doc/" || strContains diff "Misc/NEWS.d/" then
          .ok (some "Doc/ has changed")
        else .ok none
      else .ok none
    if language_tag ≠ "en" then
      match state.translation_sha with
      | none => .error ()
      | some stored_translation_sha =>
        if env.translation_sha ≠ stored_translation_sha then
          .ok (some "new translations")
        else cpythonCheck
    else cpythonCheck

/-- The state-file key `f"/{language_tag}/{version_name}/"`. -/
def stateKey (language_tag version_name : String) : String :=
  "/" ++ language_tag ++ "/" ++ version_name ++ "/"

/-- Dict lookup in the persisted document (keys are unique, first match). -/
def lookupKey : List (String × StoredState) → String → Option StoredState
  | [], _ => none
  | (k, v) :: rest, key => if k = key then some v else lookupKey rest key

/-- Dict assignment `states[key] = state`: replace in place, else append. -/
def setKey : List (String × StoredState) → String → StoredState →
    List (String × StoredState)
  | [], key, v => [(key, v)]
  | (k, w) :: rest, key, v =>
    if k = key then (key, v) :: rest else (k, w) :: setKey rest key v

/-- `DocBuilder.load_state`: the record under this pair's key, `none`
for a missing file or key (`{}` is falsy). -/
def load_state (doc : List (String × StoredState))
    (language_tag version_name : String) : Option StoredState :=
  lookupKey doc (stateKey language_tag version_name)

/-- `DocBuilder.save_state`: read-modify-write of the full document —
overwrite this pair's key with the current CPython head (and, for a
translated language, the translation head), timestamp, duration and
trigger reason. -/
def save_state (language_tag version_name : String)
    (doc : List (String × StoredState))
    (cpython_sha translation_sha : String)
    (build_start build_duration trigger : String) :
    List (String × StoredState) :=
  setKey doc (stateKey language_tag version_name)
    { last_build_start := build_start
      last_build_duration := build_duration
      triggered_by := trigger
      cpython_sha := cpython_sha
      translation_sha := if language_tag ≠ "en" then some translation_sha else none }

/-! ## Exit status (`main`, `build_docs_with_lock`) -/

/-- `os.EX_OK`. -/
def EX_OK : Nat := 0

/-- `os.EX_SOFTWARE`, used as `EX_FAILURE`. -/
def EX_FAILURE : Nat := 1

/-- `build_docs_with_lock(args, lockfile_name)`: `EX_FAILURE` when the
advisory lock is held by another run, else `EX_OK`/`EX_FAILURE` by the
result of `build_docs(args)` (passed in as `build_result`). -/
def build_docs_with_lock (lock_acquired build_result : Bool)
    (_lockfile_name : String) : Nat :=
  if !lock_acquired then EX_FAILURE
  else if build_result then EX_OK else EX_FAILURE

/-- `main()`: dispatch on `--select-output` to a lockfile name and call
`build_docs_with_lock` — whose return value is DISCARDED; `main` falls
off the end and returns `None`. -/
def main (select_output : Option String) (lock_acquired build_result : Bool) :
    Option Nat :=
  match select_output with
  | none =>
    let _ := build_docs_with_lock lock_acquired build_result "build_docs.lock"
    none
  | some "no-html" =>
    let _ := build_docs_with_lock lock_acquired build_result "build_docs_archives.lock"
    none
  | some "only-html" =>
    let _ := build_docs_with_lock lock_acquired build_result "build_docs_html.lock"
    none
  | some "only-html-en" =>
    let _ := build_docs_with_lock lock_acquired build_result "build_docs_html_en.lock"
    none
  | some _ => none

/-- `sys.exit(main())`: `sys.exit(None)` exits 0, `sys.exit(n)` exits `n`. -/
def sys_exit_status : Option Nat → Nat
  | none => 0
  | some code => code

/-! ## Per-pair build (`DocBuilder.run`) and the coordination loop -/

/-- `DocBuilder.includes_html`: `select_output != "no-html"`. -/
def includes_html (select_output : Option String) : Bool :=
  select_output ≠ some "no-html"

/-- The collaborators `DocBuilder.run` touches, passed as data: the
language flags, and whether each side-effecting step raises. -/
structure RunEnv where
  language_html_only : Bool
  select_output : Option String
  language_tag : String
  switch_raises : Bool
  clone_translation_raises : Bool
  rebuild_env : RebuildEnv
  build_raises : Bool

/-- `DocBuilder.run(http)`: `none` for the skipped `return None` paths,
`some false` for the `except`-clause `return False`, `some true` for the
final `return True`.  `build_raises` covers
`build_venv`/`build`/`copy_build_to_webroot`/`save_state` collectively. -/
def DocBuilder.run (env : RunEnv) : Option Bool :=
  if env.language_html_only && !(includes_html env.select_output) then
    none
  else if env.switch_raises then some false
  else if env.language_tag ≠ "en" && env.clone_translation_raises then some false
  else
    match should_rebuild env.language_tag env.rebuild_env with
    | .error _ => some false
    | .ok trigger_reason =>
      match trigger_reason with
      | some reason =>
        -- `if trigger_reason :=` is Python truthiness: the empty string is falsy
        if reason = "" then none
        else if env.build_raises then some false else some true
      | none => none

/-- The `while todo:` loop of `build_docs`: pop a pair, run it, record
`True` results in `build_succeeded` and non-`None` falsy results in
`build_failed`. -/
def build_docs_loop :
    List ((String × String) × RunEnv) → List (String × String) →
      List (String × String) → List (String × String) × List (String × String)
  | [], build_succeeded, build_failed => (build_succeeded, build_failed)
  | (pair, env) :: rest, build_succeeded, build_failed =>
    match DocBuilder.run env with
    | some true => build_docs_loop rest (pair :: build_succeeded) build_failed
    | some false => build_docs_loop rest build_succeeded (pair :: build_failed)
    | none => build_docs_loop rest build_succeeded build_failed

/-- `build_docs(args)`: process the work list (Python pops from the END
of `todo`, hence the `reverse`) and return `len(build_failed) == 0`,
together with the two collections for observability. -/
def build_docs (todo : List ((String × String) × RunEnv)) :
    Bool × List (String × String) × List (String × String) :=
  let (build_succeeded, build_failed) := build_docs_loop todo.reverse [] []
  (build_failed.isEmpty, build_succeeded, build_failed)

/-! ## Directory trees and `changed_files` -/

/-- A regular file: modification time and byte content.  `os.stat` size
is the byte count, so size is `content.length`. -/
structure FileData where
  mtime : Nat
  content : List Nat
deriving DecidableEq

/-- A directory tree: named entries, each a file or a subdirectory.
Entry lists play the role of (sorted, duplicate-free) `os.listdir`. -/
inductive Tree where
  | file : FileData → Tree
  | dir : List (String × Tree) → Tree

/-- `filecmp.cmp(f1, f2)` with the default `shallow=True`: equal stat
signatures (size, mtime) short-circuit to "equal" WITHOUT reading
content; different sizes are "different"; only an equal-size,
different-mtime pair is compared by content. -/
def fileCmpShallow (f1 f2 : FileData) : Bool :=
  if f1.content.length == f2.content.length && f1.mtime == f2.mtime then true
  else if f1.content.length != f2.content.length then false
  else f1.content == f2.content

/-- Entry lookup in a directory listing. -/
def lookupTree : List (String × Tree) → String → Option Tree
  | [], _ => none
  | (n, t) :: rest, name => if n = name then some t else lookupTree rest name

/-- One entry's contribution to `dircmp.diff_files`: its name when it is
a regular file on both sides comparing unequal under the shallow
comparison, else nothing. -/
def diffEntry (r : List (String × Tree)) : String × Tree → Option String
  | (n, Tree.file fa) =>
    match lookupTree r n with
    | some (Tree.file fb) => if fileCmpShallow fa fb then none else some n
    | _ => none
  | _ => none

/-- `dircmp.diff_files`: names common to both listings, regular files on
both sides, comparing unequal under the shallow comparison. -/
def diffNames (l r : List (String × Tree)) : List String :=
  l.filterMap (diffEntry r)

/-- `str(Path(dircmp_result.left).relative_to(left))`: `"."` at the
root, else the `/`-joined segments. -/
def pathStr : List String → String
  | [] => "."
  | segs => String.intercalate "/" segs

/-- `str(base / file)`: `Path` drops a leading `"."`. -/
def joinPath (segs : List String) (file : String) : String :=
  match segs with
  | [] => file
  | _ => String.intercalate "/" segs ++ "/" ++ file

/-- The per-directory appends of `traverse`: each differing file's
relative path, followed by the containing directory (with a trailing
slash) when the file is `index.html`. -/
def emitDiff (base : List String) (names : List String) : List String :=
  (names.map fun n =>
    if n = "index.html" then [joinPath base n, pathStr base ++ "/"]
    else [joinPath base n]).flatten

mutual

/-- `traverse(dircmp_result)`: this directory's differing files, then
recursion into `dircmp_result.subdirs` (the common subdirectories). -/
def dirChanged (base : List String) (l r : List (String × Tree)) : List String :=
  emitDiff base (diffNames l r) ++ subsChanged base l r
termination_by (sizeOf l, 2)

/-- The `for dircomp in dircmp_result.subdirs.values()` recursion over
the left listing. -/
def subsChanged (base : List String) (l r : List (String × Tree)) : List String :=
  match l with
  | [] => []
  | (n, Tree.dir sub) :: rest =>
    subEntryChanged base r n sub ++ subsChanged base rest r
  | _ :: rest => subsChanged base rest r
termination_by (sizeOf l, 1)

/-- One subdirectory's recursion: only when the name is also a
subdirectory on the right (`dircmp.common_dirs`). -/
def subEntryChanged (base : List String) (r : List (String × Tree))
    (n : String) (sub : List (String × Tree)) : List String :=
  match lookupTree r n with
  | some (Tree.dir rsub) => dirChanged (base ++ [n]) sub rsub
  | _ => []
termination_by (sizeOf sub, 3)

end

/-- `changed_files(left, right)`: differing files between the two trees,
recursively, as paths relative to `left`. -/
def changed_files (left right : List (String × Tree)) : List String :=
  dirChanged [] left right

instance {ε α : Type} [DecidableEq ε] [DecidableEq α] : DecidableEq (Except ε α) :=
  fun a b =>
    match a, b with
    | .ok x, .ok y =>
      if h : x = y then .isTrue (congrArg Except.ok h)
      else .isFalse fun hc => h (Except.ok.inj hc)
    | .error x, .error y =>
      if h : x = y then .isTrue (congrArg Except.error h)
      else .isFalse fun hc => h (Except.error.inj hc)
    | .ok _, .error _ => .isFalse Except.noConfusion
    | .error _, .ok _ => .isFalse Except.noConfusion

/-! ## Sample catalog entries used in concrete statements -/

/-- A catalog entry for the untranslated language. -/
def enLanguage : Language :=
  { iso639_tag := "en", name := "English", translated_name := ""
    in_prod := true, sphinxopts := [], html_only := false }

/-- A catalog entry for a translated language. -/
def frLanguage : Language :=
  { iso639_tag := "fr", name := "French", translated_name := "Francais"
    in_prod := true, sphinxopts := [], html_only := false }

/-! ## Theorems -/

/-- C9: `Version.__eq__` compares the `name` field alone — two versions
with equal names but different statuses (`stable` vs `security-fixes`)
and refs compare equal. -/
theorem C9_version_eq_by_name_only (n1 n2 s1 s2 : String) (b1 b2 : Option String) :
    (Version.beq ⟨n1, b1, s1⟩ ⟨n2, b2, s2⟩ = true ↔ n1 = n2) ∧
    Version.beq ⟨"3.13", some "3.13", "stable"⟩ ⟨"3.13", some "3.12", "security-fixes"⟩
      = true ∧
    ("stable" : String) ≠ "security-fixes" := by
  refine ⟨?_, by decide, by decide⟩
  simp [Version.beq]

/-- C2 (code bug): `build_docs_with_lock` computes `EX_FAILURE` for a
held lock or a failed build and `EX_OK` for success, but `main` discards
its return value and returns `None`, so `sys.exit(main())` exits with
status 0 on EVERY run — including runs with failing pairs or lock
contention. -/
theorem C2_exit_status_always_zero (select_output : Option String)
    (lock_acquired build_result : Bool) :
    sys_exit_status (main select_output lock_acquired build_result) = 0 ∧
    build_docs_with_lock false build_result "build_docs.lock" = EX_FAILURE ∧
    build_docs_with_lock true false "build_docs.lock" = EX_FAILURE ∧
    build_docs_with_lock true true "build_docs.lock" = EX_OK := by
  refine ⟨?_, rfl, rfl, rfl⟩
  have h : main select_output lock_acquired build_result = none := by
    unfold main
    split <;> rfl
  rw [h]
  rfl

/-- C3 (code bug): on a catalog with one invalid-status entry and one
valid entry, `Versions.from_json` raises `ValueError` from
`Version.__init__` and aborts the whole parse, instead of skipping the
invalid entry with a warning as the repository's own test
(`test_from_json_warning`) requires. -/
theorem C3_from_json_invalid_status_aborts :
    Versions.from_json
      [("2.8", { branch := "2.8", status := "ex-release" }),
       ("3.13", { branch := "3.13", status := "bugfix" })]
      = .error "ex-release" ∧
    Version.make "3.13" "bugfix" (some "3.13")
      = .ok ⟨"3.13", some "3.13", "stable"⟩ := by
  constructor
  · decide
  · decide

/-- C8 counterexample: with a catalog holding only the `en` entry, the
requested tag `xx` matches no catalog entry, yet `filter` returns an
ordinary (empty) result — it is a total filter with no lookup-error
path, contradicting the claimed failure. -/
theorem C8_counterexample :
    Languages.filter [enLanguage] ["xx"] = [] ∧
    ("xx" ∈ [enLanguage].map Language.tag → False) := by
  constructor
  · decide
  · decide

/-- C8 amended: with a non-empty requested tag sequence, `filter`
returns the catalog entries whose tag is in the requested set, in
catalog order (a sublist of the catalog); requested tags matching no
entry are silently ignored rather than raising; with no tags it returns
the full catalog. -/
theorem C8_languages_filter (languages : List Language) (tags : List String) :
    (tags ≠ [] →
      (Languages.filter languages tags).Sublist languages ∧
      ∀ l : Language, l ∈ Languages.filter languages tags ↔
        l ∈ languages ∧ l.tag ∈ tags) ∧
    Languages.filter languages [] = languages := by
  constructor
  · intro hne
    unfold Languages.filter
    rw [if_pos hne]
    constructor
    · exact List.filter_sublist _
    · intro l
      simp [List.mem_filter]
  · rfl

/-- Witness for C8: a two-language catalog filtered to `fr`. -/
theorem C8_languages_filter_witness :
    Languages.filter [enLanguage, frLanguage] ["fr"] = [frLanguage] ∧
    (frLanguage ∈ Languages.filter [enLanguage, frLanguage] ["fr"] ↔
      frLanguage ∈ [enLanguage, frLanguage] ∧ frLanguage.tag ∈ ["fr"]) :=
  ⟨by decide, ((C8_languages_filter [enLanguage, frLanguage] ["fr"]).1
    (by decide)).2 frLanguage⟩

/-- The stored record of the C1 counterexample. -/
def c1State : StoredState :=
  { last_build_start := "2024-01-01T00:00:00+00:00"
    last_build_duration := "10"
    triggered_by := "no previous state"
    cpython_sha := "aaa"
    translation_sha := none }

/-- A diff whose only changed path merely CONTAINS `Doc/` without lying
under `Doc/` (or `Misc/NEWS.d/`). -/
def c1Diff : String → String → String :=
  fun _ _ => String.intercalate "\n" ["xDoc/news"]

/-- C1 counterexample: with stored source revision `aaa`, current
revision `bbb`, and the only changed path `xDoc/news` — a path under
neither `Doc/` nor `Misc/NEWS.d/` — `should_rebuild` nevertheless
returns the truthy "Doc/ has changed" reason, because the code substring
-matches `"Doc/" in diff` against the raw diff output; the claim says
this case returns false. -/
theorem C1_counterexample :
    should_rebuild "en" ⟨some c1State, "bbb", "", c1Diff⟩
      = .ok (some "Doc/ has changed") ∧
    (∀ p ∈ ["xDoc/news"],
      pathUnder "Doc/" p = false ∧ pathUnder "Misc/NEWS.d/" p = false) ∧
    c1Diff "aaa" "bbb" = String.intercalate "\n" ["xDoc/news"] := by
  refine ⟨by decide, by decide, rfl⟩

/-- C1 amended: `should_rebuild` follows the claimed decision procedure
except the third test: with no stored state it returns the truthy
"no previous state"; with stored state, for a non-`en` language whose
current translation head differs from the stored translation revision it
returns "new translations" even when the source revision is unchanged;
otherwise, when the current source head differs from the stored source
revision the result is exactly the branch on the raw
`git diff --name-only` output: the truthy "Doc/ has changed" when that
output contains the SUBSTRING `Doc/` or `Misc/NEWS.d/` (which holds
whenever some changed path lies under those subtrees, but also for
paths merely containing them), and false when it contains neither; and
with an unchanged source revision it returns false — so in every case
other than the three reasons the result is false. -/
theorem C1_should_rebuild_decision (language_tag : String) (state : StoredState)
    (stored_tsha cpython_sha translation_sha : String)
    (diff : String → String → String) :
    (∀ env : RebuildEnv, env.state = none →
      should_rebuild language_tag env = .ok (some "no previous state")) ∧
    (language_tag ≠ "en" → state.translation_sha = some stored_tsha →
      translation_sha ≠ stored_tsha →
      should_rebuild language_tag ⟨some state, cpython_sha, translation_sha, diff⟩
        = .ok (some "new translations")) ∧
    ((language_tag = "en" ∨ state.translation_sha = some translation_sha) →
      cpython_sha ≠ state.cpython_sha →
      should_rebuild language_tag ⟨some state, cpython_sha, translation_sha, diff⟩
        = (if strContains (diff state.cpython_sha cpython_sha) "Doc/" ||
              strContains (diff state.cpython_sha cpython_sha) "Misc/NEWS.d/" then
             .ok (some "Doc/ has changed")
           else .ok none)) ∧
    ((language_tag = "en" ∨ state.translation_sha = some translation_sha) →
      cpython_sha ≠ state.cpython_sha →
      (should_rebuild language_tag ⟨some state, cpython_sha, translation_sha, diff⟩
          = .ok (some "Doc/ has changed") ↔
        (strContains (diff state.cpython_sha cpython_sha) "Doc/" = true ∨
         strContains (diff state.cpython_sha cpython_sha) "Misc/NEWS.d/" = true))) ∧
    ((language_tag = "en" ∨ state.translation_sha = some translation_sha) →
      cpython_sha ≠ state.cpython_sha →
      strContains (diff state.cpython_sha cpython_sha) "Doc/" = false →
      strContains (diff state.cpython_sha cpython_sha) "Misc/NEWS.d/" = false →
      should_rebuild language_tag ⟨some state, cpython_sha, translation_sha, diff⟩
        = .ok none) ∧
    ((language_tag = "en" ∨ state.translation_sha = some translation_sha) →
      cpython_sha = state.cpython_sha →
      should_rebuild language_tag ⟨some state, cpython_sha, translation_sha, diff⟩
        = .ok none) := by
  have hbranch : (language_tag = "en" ∨ state.translation_sha = some translation_sha) →
      cpython_sha ≠ state.cpython_sha →
      should_rebuild language_tag ⟨some state, cpython_sha, translation_sha, diff⟩
        = (if strContains (diff state.cpython_sha cpython_sha) "Doc/" ||
              strContains (diff state.cpython_sha cpython_sha) "Misc/NEWS.d/" then
             .ok (some "Doc/ has changed")
           else .ok none) := by
    intro htr hcp
    unfold should_rebuild
    rcases htr with hlang | hstored
    · simp [hlang, hcp]
    · by_cases hlang : language_tag = "en"
      · simp [hlang, hcp]
      · simp [hlang, hstored, hcp]
  refine ⟨?_, ?_, hbranch, ?_, ?_, ?_⟩
  · intro env h
    unfold should_rebuild
    rw [h]
  · intro hlang hstored hne
    unfold should_rebuild
    simp only [hlang, if_true, hstored, hne, ite_not, if_neg]
    simp [hlang, hstored, hne]
  · intro htr hcp
    rw [hbranch htr hcp]
    by_cases hdoc : strContains (diff state.cpython_sha cpython_sha) "Doc/" = true
    · simp [hdoc]
    · by_cases hmisc :
          strContains (diff state.cpython_sha cpython_sha) "Misc/NEWS.d/" = true
      · simp [hdoc, hmisc]
      · simp [hdoc, hmisc]
  · intro htr hcp hdoc hmisc
    rw [hbranch htr hcp, hdoc, hmisc]
    rfl
  · intro htr hcp
    unfold should_rebuild
    rcases htr with hlang | hstored
    · simp [hlang, hcp]
    · by_cases hlang : language_tag = "en"
      · simp [hlang, hcp]
      · simp [hlang, hstored, hcp]

/-- Witness for C1 at concrete inputs: a translated language with a new
translation revision rebuilds, and a changed source revision touching
only `README.rst` (no `Doc/` or `Misc/NEWS.d/` substring) does not. -/
theorem C1_should_rebuild_decision_witness :
    should_rebuild "fr"
      ⟨some { c1State with translation_sha := some "t1" }, "aaa", "t2", c1Diff⟩
      = .ok (some "new translations") ∧
    should_rebuild "en"
      ⟨some c1State, "bbb", "", fun _ _ => "README.rst"⟩ = .ok none :=
  ⟨(C1_should_rebuild_decision "fr" { c1State with translation_sha := some "t1" }
      "t1" "aaa" "t2" c1Diff).2.1 (by decide) rfl (by decide),
    (C1_should_rebuild_decision "en" c1State "t1" "bbb" ""
      (fun _ _ => "README.rst")).2.2.2.2.1 (Or.inl rfl) (by decide)
      (by decide) (by decide)⟩

/-- Dict assignment stores the new value under its key. -/
theorem lookupKey_setKey_self (doc : List (String × StoredState))
    (key : String) (v : StoredState) :
    lookupKey (setKey doc key v) key = some v := by
  induction doc with
  | nil => simp [setKey, lookupKey]
  | cons e rest ih =>
    obtain ⟨k, w⟩ := e
    by_cases h : k = key
    · simp [setKey, h, lookupKey]
    · simp [setKey, h, lookupKey, ih]

/-- Dict assignment leaves every other key untouched. -/
theorem lookupKey_setKey_other (doc : List (String × StoredState))
    (key other : String) (v : StoredState) (h : other ≠ key) :
    lookupKey (setKey doc key v) other = lookupKey doc other := by
  induction doc with
  | nil =>
    simp only [setKey, lookupKey]
    rw [if_neg fun hk => h hk.symm]
  | cons e rest ih =>
    obtain ⟨k, w⟩ := e
    by_cases hk : k = key
    · subst hk
      simp only [setKey, if_pos rfl, lookupKey]
      rw [if_neg fun hk2 => h hk2.symm, if_neg fun hk2 => h hk2.symm]
    · simp only [setKey, hk, if_false, lookupKey]
      by_cases hko : k = other
      · rw [if_pos hko, if_pos hko]
      · rw [if_neg hko, if_neg hko, ih]

/-- C7: after `save_state` records the current source (and, for a
translated language, translation) head revisions for a pair, an
immediately following `should_rebuild` with those same current revisions
returns false (no rebuild, `.ok none`); and `save_state` writes only its
own pair's key, leaving every other key of the persisted document
unchanged. -/
theorem C7_save_state_roundtrip (language_tag version_name : String)
    (doc : List (String × StoredState)) (cpython_sha translation_sha : String)
    (build_start build_duration trigger : String) (diff : String → String → String) :
    should_rebuild language_tag
      ⟨load_state
          (save_state language_tag version_name doc cpython_sha translation_sha
            build_start build_duration trigger)
          language_tag version_name,
        cpython_sha, translation_sha, diff⟩ = .ok none ∧
    ∀ key, key ≠ stateKey language_tag version_name →
      lookupKey
          (save_state language_tag version_name doc cpython_sha translation_sha
            build_start build_duration trigger)
          key = lookupKey doc key := by
  constructor
  · unfold load_state save_state
    rw [lookupKey_setKey_self]
    unfold should_rebuild
    by_cases hlang : language_tag = "en"
    · simp [hlang]
    · simp [hlang]
  · intro key hkey
    unfold save_state
    exact lookupKey_setKey_other doc _ key _ hkey

/-- Witness for C7: a concrete `fr/3.13` save over a document holding an
unrelated `es/3.12` record. -/
theorem C7_save_state_roundtrip_witness :
    should_rebuild "fr"
      ⟨load_state
          (save_state "fr" "3.13" [("/es/3.12/", c1State)] "abc" "def"
            "2024-02-02" "12" "new translations")
          "fr" "3.13",
        "abc", "def", c1Diff⟩ = .ok none ∧
    lookupKey
        (save_state "fr" "3.13" [("/es/3.12/", c1State)] "abc" "def"
          "2024-02-02" "12" "new translations")
        "/es/3.12/" = lookupKey [("/es/3.12/", c1State)] "/es/3.12/" :=
  ⟨(C7_save_state_roundtrip "fr" "3.13" [("/es/3.12/", c1State)] "abc" "def"
      "2024-02-02" "12" "new translations" c1Diff).1,
    (C7_save_state_roundtrip "fr" "3.13" [("/es/3.12/", c1State)] "abc" "def"
      "2024-02-02" "12" "new translations" c1Diff).2 "/es/3.12/" (by decide)⟩

/-- The accumulating loop collects, in work-list order, the pairs whose
run returned `True` and those whose run returned `False`. -/
theorem build_docs_loop_spec (l : List ((String × String) × RunEnv))
    (s f : List (String × String)) :
    build_docs_loop l s f =
      (((l.filter fun pe => DocBuilder.run pe.2 == some true).map Prod.fst).reverse ++ s,
       ((l.filter fun pe => DocBuilder.run pe.2 == some false).map Prod.fst).reverse ++ f) := by
  induction l generalizing s f with
  | nil => simp [build_docs_loop]
  | cons e rest ih =>
    obtain ⟨pair, env⟩ := e
    cases h : DocBuilder.run env with
    | none =>
      simp [build_docs_loop, h, ih, List.filter_cons]
    | some b =>
      cases b with
      | true =>
        simp [build_docs_loop, h, ih, List.filter_cons]
      | false =>
        simp [build_docs_loop, h, ih, List.filter_cons]

/-- C10: `DocBuilder.run` is three-valued — `none` (skipped) when the
language is HTML-only and the selected output excludes HTML, or when no
step raises and the rebuild gate reports no rebuild; `some false` when a
step raises; `some true` on success — and the coordination loop records
exactly the `True` results as succeeded and exactly the `False` results
as failed, so the overall flag is failure-free exactly when no pair's
run returned `False`: skipped pairs count neither way. -/
theorem C10_run_and_loop (env : RunEnv) (todo : List ((String × String) × RunEnv)) :
    (env.language_html_only = true → includes_html env.select_output = false →
      DocBuilder.run env = none) ∧
    (env.switch_raises = false →
      (env.language_tag = "en" ∨ env.clone_translation_raises = false) →
      should_rebuild env.language_tag env.rebuild_env = .ok none →
      DocBuilder.run env = none) ∧
    (¬(env.language_html_only = true ∧ includes_html env.select_output = false) →
      (env.switch_raises = true ∨
       (env.language_tag ≠ "en" ∧ env.clone_translation_raises = true) ∨
       (env.switch_raises = false ∧
        (env.language_tag = "en" ∨ env.clone_translation_raises = false) ∧
        (should_rebuild env.language_tag env.rebuild_env = .error () ∨
         (∃ r, should_rebuild env.language_tag env.rebuild_env = .ok (some r) ∧
           r ≠ "" ∧ env.build_raises = true)))) →
      DocBuilder.run env = some false) ∧
    (¬(env.language_html_only = true ∧ includes_html env.select_output = false) →
      env.switch_raises = false →
      (env.language_tag = "en" ∨ env.clone_translation_raises = false) →
      env.build_raises = false →
      (∃ r, should_rebuild env.language_tag env.rebuild_env = .ok (some r) ∧ r ≠ "") →
      DocBuilder.run env = some true) ∧
    ((build_docs todo).2.1
        = (todo.filter fun pe => DocBuilder.run pe.2 == some true).map Prod.fst ∧
     (build_docs todo).2.2
        = (todo.filter fun pe => DocBuilder.run pe.2 == some false).map Prod.fst ∧
     ((build_docs todo).1 = true ↔
        ∀ pe ∈ todo, DocBuilder.run pe.2 ≠ some false)) := by
  obtain ⟨ho, so, lt, sw, cl, renv, br⟩ := env
  refine ⟨?_, ?_, ?_, ?_, ?_, ?_, ?_⟩
  · intro hhtml hinc
    simp only at hhtml hinc
    subst hhtml
    unfold DocBuilder.run
    simp [hinc]
  · intro hsw hcl hgate
    simp only at hsw hcl hgate
    subst hsw
    unfold DocBuilder.run
    simp only
    split
    · rfl
    · rcases hcl with h | h
      · subst h
        simp [hgate]
      · subst h
        simp [hgate]
  · intro hskip hraise
    simp only at hskip hraise
    have hsk : (ho && !(includes_html so)) = false := by
      cases ho with
      | false => rfl
      | true =>
        cases hinc : includes_html so with
        | false => exact absurd ⟨rfl, hinc⟩ hskip
        | true => simp [hinc]
    unfold DocBuilder.run
    simp only
    rw [hsk]
    simp only [Bool.false_eq_true, if_false]
    rcases hraise with hsw | ⟨hlt, hcl⟩ | ⟨hsw, hcl, hgate⟩
    · subst hsw
      simp
    · subst hcl
      cases sw with
      | true => simp
      | false => simp [hlt]
    · subst hsw
      simp only [Bool.false_eq_true, if_false]
      have hclb : ((lt ≠ "en" : Bool) && cl) = false := by
        rcases hcl with h | h
        · subst h
          simp
        · subst h
          simp
      rw [hclb]
      simp only [Bool.false_eq_true, if_false]
      rcases hgate with hg | ⟨r, hg, hr, hb⟩
      · rw [hg]
      · subst hb
        rw [hg]
        simp [hr]
  · intro hskip hsw hcl hb hex
    obtain ⟨r, hg, hr⟩ := hex
    simp only at hskip hsw hcl hb hg
    subst hsw
    subst hb
    have hsk : (ho && !(includes_html so)) = false := by
      cases ho with
      | false => rfl
      | true =>
        cases hinc : includes_html so with
        | false => exact absurd ⟨rfl, hinc⟩ hskip
        | true => simp [hinc]
    unfold DocBuilder.run
    simp only
    rw [hsk]
    simp only [Bool.false_eq_true, if_false]
    have hclb : ((lt ≠ "en" : Bool) && cl) = false := by
      rcases hcl with h | h
      · subst h
        simp
      · subst h
        simp
    rw [hclb]
    simp only [Bool.false_eq_true, if_false]
    rw [hg]
    simp [hr]
  · unfold build_docs
    rw [build_docs_loop_spec]
    simp [List.filter_reverse, List.map_reverse]
  · unfold build_docs
    rw [build_docs_loop_spec]
    simp [List.filter_reverse, List.map_reverse]
  · unfold build_docs
    rw [build_docs_loop_spec]
    simp only [List.append_nil]
    constructor
    · intro hemp pe hpe hrun
      have : pe ∈ todo.reverse.filter fun pe => DocBuilder.run pe.2 == some false := by
        rw [List.mem_filter]
        exact ⟨List.mem_reverse.mpr hpe, by simp [hrun]⟩
      rw [List.isEmpty_iff] at hemp
      have h2 := List.map_eq_nil_iff.mp (List.reverse_eq_nil_iff.mp hemp)
      rw [h2] at this
      cases this
    · intro hall
      rw [List.isEmpty_iff, List.reverse_eq_nil_iff, List.map_eq_nil_iff,
        List.filter_eq_nil_iff]
      intro pe hpe
      have := hall pe (List.mem_reverse.mp hpe)
      simp [this]

/-- Witness for C10: a pair skipped by the rebuild gate. -/
theorem C10_run_and_loop_witness :
    DocBuilder.run
      { language_html_only := false, select_output := none, language_tag := "en"
        switch_raises := false, clone_translation_raises := false
        rebuild_env := ⟨some c1State, "aaa", "", c1Diff⟩, build_raises := false }
      = none :=
  (C10_run_and_loop
      { language_html_only := false, select_output := none, language_tag := "en"
        switch_raises := false, clone_translation_raises := false
        rebuild_env := ⟨some c1State, "aaa", "", c1Diff⟩, build_raises := false }
      []).2.1 rfl (Or.inl rfl) (by decide)

/-! ## Well-formed directory listings and the common-diff relation -/

/-- A real directory tree: entry names are unique at every level. -/
inductive WfT : Tree → Prop where
  | file {fd : FileData} : WfT (Tree.file fd)
  | dir {es : List (String × Tree)} :
      (es.map Prod.fst).Nodup → (∀ e ∈ es, WfT e.2) → WfT (Tree.dir es)

/-- Well-formedness of a directory listing. -/
def WfEntries (es : List (String × Tree)) : Prop :=
  (es.map Prod.fst).Nodup ∧ ∀ e ∈ es, WfT e.2

/-- `CommonDiff l r segs n`: at the subdirectory path `segs` (common to
both trees), the name `n` is a regular file on both sides and the two
files compare unequal under the shallow comparison. -/
inductive CommonDiff :
    List (String × Tree) → List (String × Tree) → List String → String → Prop where
  | here {l r : List (String × Tree)} {n : String} {fa fb : FileData} :
      lookupTree l n = some (Tree.file fa) →
      lookupTree r n = some (Tree.file fb) →
      fileCmpShallow fa fb = false →
      CommonDiff l r [] n
  | deeper {l r : List (String × Tree)} {d : String}
      {sub rsub : List (String × Tree)} {segs : List String} {n : String} :
      lookupTree l d = some (Tree.dir sub) →
      lookupTree r d = some (Tree.dir rsub) →
      CommonDiff sub rsub segs n →
      CommonDiff l r (d :: segs) n

/-- A successful lookup means the name is listed. -/
theorem lookupTree_some_name_mem {l : List (String × Tree)} {n : String} {t : Tree}
    (h : lookupTree l n = some t) : n ∈ l.map Prod.fst := by
  induction l with
  | nil => exact Option.noConfusion h
  | cons e rest ih =>
    obtain ⟨k, v⟩ := e
    by_cases hk : k = n
    · subst hk
      exact List.mem_cons_self _ _
    · rw [lookupTree, if_neg hk] at h
      exact List.mem_cons_of_mem _ (ih h)

/-- A successful lookup means the pair is an entry. -/
theorem lookupTree_some_pair_mem {l : List (String × Tree)} {n : String} {t : Tree}
    (h : lookupTree l n = some t) : (n, t) ∈ l := by
  induction l with
  | nil => exact Option.noConfusion h
  | cons e rest ih =>
    obtain ⟨k, v⟩ := e
    by_cases hk : k = n
    · subst hk
      rw [lookupTree, if_pos rfl] at h
      rw [Option.some.inj h]
      exact List.mem_cons_self _ _
    · rw [lookupTree, if_neg hk] at h
      exact List.mem_cons_of_mem _ (ih h)

/-- With unique names, an entry is exactly what lookup finds. -/
theorem lookupTree_eq_some_of_mem_nodup {l : List (String × Tree)} {n : String}
    {t : Tree} (hnd : (l.map Prod.fst).Nodup) (h : (n, t) ∈ l) :
    lookupTree l n = some t := by
  induction l with
  | nil => cases h
  | cons e rest ih =>
    obtain ⟨k, v⟩ := e
    rw [List.map_cons, List.nodup_cons] at hnd
    rcases List.mem_cons.mp h with heq | hmem
    · rw [← heq]
      rw [lookupTree, if_pos rfl]
    · have hk : k ≠ n := by
        intro hkn
        subst hkn
        exact hnd.1 (List.mem_map.mpr ⟨(k, t), hmem, rfl⟩)
      rw [lookupTree, if_neg hk]
      exact ih hnd.2 hmem

/-- `diffEntry` on a subdirectory entry contributes nothing. -/
theorem diffEntry_dir (r : List (String × Tree)) (k : String)
    (sub : List (String × Tree)) : diffEntry r (k, Tree.dir sub) = none := rfl

/-- `diffEntry` on a file with no counterpart contributes nothing. -/
theorem diffEntry_file_none (r : List (String × Tree)) (k : String)
    (fa : FileData) (h : lookupTree r k = none) :
    diffEntry r (k, Tree.file fa) = none := by
  simp [diffEntry, h]

/-- `diffEntry` on a file shadowed by a directory contributes nothing. -/
theorem diffEntry_file_dir (r : List (String × Tree)) (k : String)
    (fa : FileData) (rsub : List (String × Tree))
    (h : lookupTree r k = some (Tree.dir rsub)) :
    diffEntry r (k, Tree.file fa) = none := by
  simp [diffEntry, h]

/-- `diffEntry` on a common regular file applies the shallow comparison. -/
theorem diffEntry_file_file (r : List (String × Tree)) (k : String)
    (fa fb : FileData) (h : lookupTree r k = some (Tree.file fb)) :
    diffEntry r (k, Tree.file fa) =
      if fileCmpShallow fa fb then none else some k := by
  simp [diffEntry, h]

/-- Characterization of one entry's `diff_files` contribution. -/
theorem diffEntry_eq_some {r : List (String × Tree)} {k : String} {t : Tree}
    {n : String} :
    diffEntry r (k, t) = some n ↔
      k = n ∧ ∃ fa fb, t = Tree.file fa ∧
        lookupTree r k = some (Tree.file fb) ∧ fileCmpShallow fa fb = false := by
  cases t with
  | dir sub =>
    rw [diffEntry_dir]
    constructor
    · intro h
      exact Option.noConfusion h
    · rintro ⟨_, fa, fb, ht, _, _⟩
      exact Tree.noConfusion ht
  | file fa =>
    cases hr : lookupTree r k with
    | none =>
      rw [diffEntry_file_none r k fa hr]
      constructor
      · intro h
        exact Option.noConfusion h
      · rintro ⟨_, fa', fb, _, hr', _⟩
        exact Option.noConfusion hr'
    | some tr =>
      cases tr with
      | dir rsub =>
        rw [diffEntry_file_dir r k fa rsub hr]
        constructor
        · intro h
          exact Option.noConfusion h
        · rintro ⟨_, fa', fb, _, hr', _⟩
          exact Tree.noConfusion (Option.some.inj hr')
      | file fb =>
        rw [diffEntry_file_file r k fa fb hr]
        by_cases hc : fileCmpShallow fa fb = true
        · rw [if_pos hc]
          constructor
          · intro h
            exact Option.noConfusion h
          · rintro ⟨_, fa', fb', ht, hr', hc'⟩
            have h1 : fa' = fa := (Tree.file.inj ht).symm
            have h2 : fb' = fb := (Tree.file.inj (Option.some.inj hr')).symm
            subst h1
            subst h2
            rw [hc] at hc'
            exact Bool.noConfusion hc'
        · rw [if_neg hc]
          have hc' : fileCmpShallow fa fb = false := by
            cases hx : fileCmpShallow fa fb with
            | false => rfl
            | true => exact absurd hx hc
          constructor
          · intro h
            exact ⟨Option.some.inj h, fa, fb, rfl, rfl, hc'⟩
          · rintro ⟨hn, _, _, _, _, _⟩
            rw [hn]

/-- With unique names, `diff_files` membership is exactly "common
regular file comparing unequal". -/
theorem mem_diffNames {l r : List (String × Tree)} {n : String}
    (hnd : (l.map Prod.fst).Nodup) :
    n ∈ diffNames l r ↔
      ∃ fa fb, lookupTree l n = some (Tree.file fa) ∧
        lookupTree r n = some (Tree.file fb) ∧ fileCmpShallow fa fb = false := by
  rw [diffNames, List.mem_filterMap]
  constructor
  · rintro ⟨e, hel, hde⟩
    obtain ⟨hn, fa, fb, ht, hr, hc⟩ := diffEntry_eq_some.mp hde
    obtain ⟨k, t⟩ := e
    dsimp only at hn ht hr
    subst hn
    subst ht
    exact ⟨fa, fb, lookupTree_eq_some_of_mem_nodup hnd hel, hr, hc⟩
  · rintro ⟨fa, fb, hl, hr, hc⟩
    exact ⟨(n, Tree.file fa), lookupTree_some_pair_mem hl,
      diffEntry_eq_some.mpr ⟨rfl, fa, fb, rfl, hr, hc⟩⟩


/-- A subdirectory with a right-hand directory counterpart recurses. -/
theorem subEntryChanged_dir {r : List (String × Tree)} {n : String}
    {rsub : List (String × Tree)} (base : List String)
    (sub : List (String × Tree)) (h : lookupTree r n = some (Tree.dir rsub)) :
    subEntryChanged base r n sub = dirChanged (base ++ [n]) sub rsub := by
  simp [subEntryChanged, h]

/-- A subdirectory with no right-hand counterpart contributes nothing. -/
theorem subEntryChanged_none {r : List (String × Tree)} {n : String}
    (base : List String) (sub : List (String × Tree))
    (h : lookupTree r n = none) : subEntryChanged base r n sub = [] := by
  simp [subEntryChanged, h]

/-- A subdirectory shadowed by a right-hand file contributes nothing. -/
theorem subEntryChanged_file {r : List (String × Tree)} {n : String}
    {fb : FileData} (base : List String) (sub : List (String × Tree))
    (h : lookupTree r n = some (Tree.file fb)) :
    subEntryChanged base r n sub = [] := by
  simp [subEntryChanged, h]

/-- Membership in the per-directory emitted paths. -/
theorem mem_emitDiff {base : List String} {names : List String} {p : String} :
    p ∈ emitDiff base names ↔
      (∃ n ∈ names, p = joinPath base n) ∨
      ("index.html" ∈ names ∧ p = pathStr base ++ "/") := by
  constructor
  · intro hp
    rw [emitDiff, List.mem_flatten] at hp
    obtain ⟨l, hl, hpl⟩ := hp
    rw [List.mem_map] at hl
    obtain ⟨n, hn, rfl⟩ := hl
    by_cases hi : n = "index.html"
    · rw [if_pos hi] at hpl
      rcases List.mem_cons.mp hpl with rfl | hpl'
      · exact Or.inl ⟨n, hn, rfl⟩
      · rcases List.mem_cons.mp hpl' with rfl | h0
        · exact Or.inr ⟨hi ▸ hn, rfl⟩
        · exact absurd h0 (List.not_mem_nil _)
    · rw [if_neg hi] at hpl
      rcases List.mem_cons.mp hpl with rfl | h0
      · exact Or.inl ⟨n, hn, rfl⟩
      · exact absurd h0 (List.not_mem_nil _)
  · intro h
    rw [emitDiff, List.mem_flatten]
    rcases h with ⟨n, hn, rfl⟩ | ⟨hidx, rfl⟩
    · refine ⟨_, List.mem_map.mpr ⟨n, hn, rfl⟩, ?_⟩
      by_cases hi : n = "index.html"
      · rw [if_pos hi]
        exact List.mem_cons_self _ _
      · rw [if_neg hi]
        exact List.mem_cons_self _ _
    · refine ⟨_, List.mem_map.mpr ⟨"index.html", hidx, rfl⟩, ?_⟩
      rw [if_pos rfl]
      exact List.mem_cons_of_mem _ (List.mem_cons_self _ _)

/-- Membership in the subdirectory recursion, with unique names on the
left: exactly the paths produced by some common subdirectory. -/
theorem mem_subsChanged {base : List String} {r : List (String × Tree)} :
    ∀ {l : List (String × Tree)}, (l.map Prod.fst).Nodup → ∀ {p : String},
      (p ∈ subsChanged base l r ↔
        ∃ d sub rsub, lookupTree l d = some (Tree.dir sub) ∧
          lookupTree r d = some (Tree.dir rsub) ∧
          p ∈ dirChanged (base ++ [d]) sub rsub) := by
  intro l
  induction l with
  | nil =>
    intro _ p
    constructor
    · intro hp
      rw [subsChanged] at hp
      exact absurd hp (List.not_mem_nil _)
    · rintro ⟨d, sub, rsub, hl, _, _⟩
      exact Option.noConfusion hl
  | cons e rest ih =>
    intro hnd p
    obtain ⟨k, t⟩ := e
    rw [List.map_cons, List.nodup_cons] at hnd
    cases t with
    | file fa =>
      have hstep : subsChanged base ((k, Tree.file fa) :: rest) r
          = subsChanged base rest r := by
        rw [subsChanged]
        rintro n sub h
        exact Tree.noConfusion (congrArg Prod.snd h)
      rw [hstep, ih hnd.2]
      constructor
      · rintro ⟨d, sub, rsub, hl, hr, hp⟩
        refine ⟨d, sub, rsub, ?_, hr, hp⟩
        have hk : k ≠ d := by
          intro hkd
          subst hkd
          exact hnd.1 (List.mem_map.mpr ⟨(k, Tree.dir sub),
            lookupTree_some_pair_mem hl, rfl⟩)
        rw [lookupTree, if_neg hk]
        exact hl
      · rintro ⟨d, sub, rsub, hl, hr, hp⟩
        by_cases hk : k = d
        · subst hk
          rw [lookupTree, if_pos rfl] at hl
          exact Tree.noConfusion (Option.some.inj hl)
        · rw [lookupTree, if_neg hk] at hl
          exact ⟨d, sub, rsub, hl, hr, hp⟩
    | dir sub =>
      have hstep : subsChanged base ((k, Tree.dir sub) :: rest) r
          = subEntryChanged base r k sub ++ subsChanged base rest r := by
        rw [subsChanged]
      rw [hstep, List.mem_append, ih hnd.2]
      constructor
      · rintro (hp | ⟨d, sub', rsub', hl, hr, hp⟩)
        · cases hr : lookupTree r k with
          | none =>
            rw [subEntryChanged_none base sub hr] at hp
            exact absurd hp (List.not_mem_nil _)
          | some tr =>
            cases tr with
            | file fb =>
              rw [subEntryChanged_file base sub hr] at hp
              exact absurd hp (List.not_mem_nil _)
            | dir rsub =>
              rw [subEntryChanged_dir base sub hr] at hp
              refine ⟨k, sub, rsub, ?_, hr, hp⟩
              rw [lookupTree, if_pos rfl]
        · refine ⟨d, sub', rsub', ?_, hr, hp⟩
          have hk : k ≠ d := by
            intro hkd
            subst hkd
            exact hnd.1 (List.mem_map.mpr ⟨(k, Tree.dir sub'),
              lookupTree_some_pair_mem hl, rfl⟩)
          rw [lookupTree, if_neg hk]
          exact hl
      · rintro ⟨d, sub', rsub', hl, hr, hp⟩
        by_cases hk : k = d
        · subst hk
          rw [lookupTree, if_pos rfl] at hl
          have hsub : sub' = sub := (Tree.dir.inj (Option.some.inj hl)).symm
          subst hsub
          left
          rw [subEntryChanged_dir base sub' hr]
          exact hp
        · rw [lookupTree, if_neg hk] at hl
          exact Or.inr ⟨d, sub', rsub', hl, hr, hp⟩

/-- A subtree found by lookup is smaller than the listing holding it. -/
theorem sizeOf_lookup_dir_lt {l : List (String × Tree)} {d : String}
    {sub : List (String × Tree)} (h : lookupTree l d = some (Tree.dir sub)) :
    sizeOf sub < sizeOf l := by
  have h1 : sizeOf (d, Tree.dir sub) < sizeOf l :=
    List.sizeOf_lt_of_mem (lookupTree_some_pair_mem h)
  simp only [Prod.mk.sizeOf_spec, Tree.dir.sizeOf_spec] at h1
  omega

/-- Well-formedness descends to a subdirectory found by lookup. -/
theorem wf_lookup_dir {l : List (String × Tree)} {d : String}
    {sub : List (String × Tree)} (hwf : WfEntries l)
    (h : lookupTree l d = some (Tree.dir sub)) : WfEntries sub := by
  have hm := lookupTree_some_pair_mem h
  have hw := hwf.2 _ hm
  cases hw with
  | dir h1 h2 => exact ⟨h1, h2⟩

/-- The traversal's output, characterized: paths of common files that
differ under the shallow comparison, plus directory markers for
differing `index.html` files.  (Strong induction on the size of the
left listing.) -/
theorem mem_dirChanged_aux :
    ∀ (N : Nat) (l : List (String × Tree)), sizeOf l ≤ N →
      ∀ (r : List (String × Tree)) (base : List String) (p : String),
        WfEntries l →
        (p ∈ dirChanged base l r ↔
          (∃ segs n, p = joinPath (base ++ segs) n ∧ CommonDiff l r segs n) ∨
          (∃ segs, p = pathStr (base ++ segs) ++ "/" ∧
            CommonDiff l r segs "index.html")) := by
  intro N
  induction N with
  | zero =>
    intro l hsz
    exact absurd hsz (by cases l <;> simp)
  | succ N ih =>
    intro l hsz r base p hwf
    rw [dirChanged, List.mem_append, mem_emitDiff, mem_subsChanged hwf.1]
    constructor
    · rintro ((⟨n, hn, rfl⟩ | ⟨hidx, rfl⟩) | ⟨d, sub, rsub, hl, hr, hp⟩)
      · obtain ⟨fa, fb, h1, h2, h3⟩ := (mem_diffNames hwf.1).mp hn
        refine Or.inl ⟨[], n, ?_, CommonDiff.here h1 h2 h3⟩
        rw [List.append_nil]
      · obtain ⟨fa, fb, h1, h2, h3⟩ := (mem_diffNames hwf.1).mp hidx
        refine Or.inr ⟨[], ?_, CommonDiff.here h1 h2 h3⟩
        rw [List.append_nil]
      · have hsub : sizeOf sub ≤ N := by
          have := sizeOf_lookup_dir_lt hl
          omega
        rcases (ih sub hsub rsub (base ++ [d]) p (wf_lookup_dir hwf hl)).mp hp with
          ⟨segs, n, hpe, hcd⟩ | ⟨segs, hpe, hcd⟩
        · refine Or.inl ⟨d :: segs, n, ?_, CommonDiff.deeper hl hr hcd⟩
          rw [hpe, List.append_assoc, List.singleton_append]
        · refine Or.inr ⟨d :: segs, ?_, CommonDiff.deeper hl hr hcd⟩
          rw [hpe, List.append_assoc, List.singleton_append]
    · rintro (⟨segs, n, rfl, hcd⟩ | ⟨segs, rfl, hcd⟩)
      · cases hcd with
        | here h1 h2 h3 =>
          refine Or.inl (Or.inl ⟨n, (mem_diffNames hwf.1).mpr ⟨_, _, h1, h2, h3⟩, ?_⟩)
          rw [List.append_nil]
        | deeper hl hr hcd' =>
          rename_i d sub rsub segs'
          have hsub : sizeOf sub ≤ N := by
            have := sizeOf_lookup_dir_lt hl
            omega
          refine Or.inr ⟨d, sub, rsub, hl, hr, ?_⟩
          refine (ih sub hsub rsub (base ++ [d]) _ (wf_lookup_dir hwf hl)).mpr ?_
          refine Or.inl ⟨segs', n, ?_, hcd'⟩
          rw [List.append_assoc, List.singleton_append]
      · cases hcd with
        | here h1 h2 h3 =>
          refine Or.inl (Or.inr ⟨(mem_diffNames hwf.1).mpr ⟨_, _, h1, h2, h3⟩, ?_⟩)
          rw [List.append_nil]
        | deeper hl hr hcd' =>
          rename_i d sub rsub segs'
          have hsub : sizeOf sub ≤ N := by
            have := sizeOf_lookup_dir_lt hl
            omega
          refine Or.inr ⟨d, sub, rsub, hl, hr, ?_⟩
          refine (ih sub hsub rsub (base ++ [d]) _ (wf_lookup_dir hwf hl)).mpr ?_
          refine Or.inr ⟨segs', ?_, hcd'⟩
          rw [List.append_assoc, List.singleton_append]

/-- C4 counterexample: a file present only in the built output tree is
NOT reported by `changed_files` — `dircmp.diff_files` only covers names
common to both listings, so `left_only` entries are dropped; the claim
says `only.txt` must be returned. -/
theorem C4_counterexample :
    changed_files [("only.txt", Tree.file ⟨1, [7]⟩)] [] = [] ∧
    ("only.txt" ∈ changed_files [("only.txt", Tree.file ⟨1, [7]⟩)] [] → False) ∧
    lookupTree [("only.txt", Tree.file ⟨1, [7]⟩)] "only.txt"
      = some (Tree.file ⟨1, [7]⟩) ∧
    lookupTree ([] : List (String × Tree)) "only.txt" = none := by
  have h : changed_files [("only.txt", Tree.file ⟨1, [7]⟩)] [] = [] := by
    simp [changed_files, dirChanged, subsChanged, diffNames, diffEntry, emitDiff,
      lookupTree]
  refine ⟨h, ?_, rfl, rfl⟩
  rw [h]
  exact fun hc => List.not_mem_nil _ hc

/-- C4 amended: for well-formed trees, `changed_files` returns exactly
the relative paths of files PRESENT IN BOTH trees that differ under the
shallow `filecmp` comparison, plus, for each such differing
`index.html`, the containing directory path itself (with a trailing
slash, `"./"` at the root); files existing only in `built_output_dir`
are not reported. -/
theorem C4_changed_files_membership (left right : List (String × Tree))
    (hwf : WfEntries left) (p : String) :
    p ∈ changed_files left right ↔
      (∃ segs n, p = joinPath segs n ∧ CommonDiff left right segs n) ∨
      (∃ segs, p = pathStr segs ++ "/" ∧
        CommonDiff left right segs "index.html") := by
  have h := mem_dirChanged_aux (sizeOf left) left (Nat.le_refl _) right [] p hwf
  rw [changed_files, h]
  simp only [List.nil_append]

/-- The left tree of the C4/C5 witnesses. -/
def c4Left : List (String × Tree) := [("index.html", Tree.file ⟨1, [1]⟩)]

/-- The right tree of the C4 witness: same name, different size. -/
def c4Right : List (String × Tree) := [("index.html", Tree.file ⟨2, [1, 2]⟩)]

/-- Witness for C4: the root `index.html` differs (different sizes), so
the directory marker `./` is characterized. -/
theorem C4_changed_files_membership_witness :
    "./" ∈ changed_files c4Left c4Right ↔
      (∃ segs n, "./" = joinPath segs n ∧ CommonDiff c4Left c4Right segs n) ∨
      (∃ segs, "./" = pathStr segs ++ "/" ∧
        CommonDiff c4Left c4Right segs "index.html") :=
  C4_changed_files_membership c4Left c4Right
    ⟨by simp [c4Left], by
      intro e he
      rcases List.mem_cons.mp he with rfl | h0
      · exact WfT.file
      · cases h0⟩ "./"

/-- C5 counterexample: two trees differing only in one file's bytes,
with equal size and equal mtime, are reported as UNCHANGED —
`filecmp.dircmp` uses `shallow=True`, so an equal `(size, mtime)`
signature short-circuits without reading content; the claim says
`a.txt` must be reported changed. -/
theorem C5_counterexample :
    changed_files [("a.txt", Tree.file ⟨5, [1]⟩)] [("a.txt", Tree.file ⟨5, [2]⟩)]
      = [] ∧
    ("a.txt" ∈ changed_files [("a.txt", Tree.file ⟨5, [1]⟩)]
        [("a.txt", Tree.file ⟨5, [2]⟩)] → False) ∧
    (FileData.mk 5 [1]).content ≠ (FileData.mk 5 [2]).content ∧
    (FileData.mk 5 [1]).content.length = (FileData.mk 5 [2]).content.length ∧
    (FileData.mk 5 [1]).mtime = (FileData.mk 5 [2]).mtime := by
  have h : changed_files [("a.txt", Tree.file ⟨5, [1]⟩)]
      [("a.txt", Tree.file ⟨5, [2]⟩)] = [] := by
    simp [changed_files, dirChanged, subsChanged, diffNames, diffEntry, emitDiff,
      lookupTree, fileCmpShallow]
  refine ⟨h, ?_, by decide, rfl, rfl⟩
  rw [h]
  exact fun hc => List.not_mem_nil _ hc

/-- C5 amended: `changed_files` compares common files by the shallow
stat signature first — equal size and equal mtime short-circuit to
"unchanged" without reading bytes; only when the signature differs
(different mtime, or different size) does the comparison fall back to
content, and a single-file tree is reported changed exactly when that
comparison fails. -/
theorem C5_shallow_comparison (fa fb : FileData) (n : String) :
    (fa.content.length = fb.content.length → fa.mtime = fb.mtime →
      fileCmpShallow fa fb = true) ∧
    (fa.mtime ≠ fb.mtime ∨ fa.content.length ≠ fb.content.length →
      (fileCmpShallow fa fb = true ↔ fa.content = fb.content)) ∧
    changed_files [(n, Tree.file fa)] [(n, Tree.file fb)]
      = (if fileCmpShallow fa fb then []
         else if n = "index.html" then [n, "./"] else [n]) := by
  refine ⟨?_, ?_, ?_⟩
  · intro h1 h2
    rw [fileCmpShallow, if_pos]
    simp [h1, h2]
  · intro hd
    rw [fileCmpShallow]
    by_cases hl : fa.content.length = fb.content.length
    · have hm : fa.mtime ≠ fb.mtime := by
        rcases hd with h | h
        · exact h
        · exact absurd hl h
      rw [if_neg (by simp [hm]), if_neg (by simp [hl])]
      exact beq_iff_eq
    · rw [if_neg (by simp [hl]), if_pos (by simp [hl])]
      constructor
      · intro h
        exact Bool.noConfusion h
      · intro h
        exact absurd (congrArg List.length h) hl
  · by_cases hcmp : fileCmpShallow fa fb = true
    · rw [if_pos hcmp]
      simp [changed_files, dirChanged, subsChanged, diffNames, diffEntry,
        emitDiff, lookupTree, hcmp]
    · have hcmp' : fileCmpShallow fa fb = false := by
        cases hx : fileCmpShallow fa fb with
        | false => rfl
        | true => exact absurd hx hcmp
      rw [if_neg hcmp]
      by_cases hn : n = "index.html"
      · subst hn
        simp [changed_files, dirChanged, subsChanged, diffNames, diffEntry,
          emitDiff, lookupTree, hcmp', joinPath, pathStr]
      · simp [changed_files, dirChanged, subsChanged, diffNames, diffEntry,
          emitDiff, lookupTree, hcmp', joinPath, pathStr, hn]

/-- Witness for C5: equal size and mtime short-circuit to "equal", and
the single-file tree diff is empty. -/
theorem C5_shallow_comparison_witness :
    fileCmpShallow ⟨5, [1]⟩ ⟨5, [2]⟩ = true ∧
    changed_files [("b.txt", Tree.file ⟨5, [1]⟩)] [("b.txt", Tree.file ⟨5, [2]⟩)]
      = (if fileCmpShallow ⟨5, [1]⟩ ⟨5, [2]⟩ then []
         else if "b.txt" = "index.html" then ["b.txt", "./"] else ["b.txt"]) :=
  ⟨(C5_shallow_comparison ⟨5, [1]⟩ ⟨5, [2]⟩ "b.txt").1 rfl rfl,
    (C5_shallow_comparison ⟨5, [1]⟩ ⟨5, [2]⟩ "b.txt").2.2⟩

end DocsBuild
